import Mathlib

/-!
Verification development for the Argentine-bonds cash-flow calculator
(files: the calculator module with getInterestRate, getOutstandingPrincipal,
calculateCashFlows, calculateAllCashFlows, aggregateCashFlows,
calculatePresentValue, and the static bond reference data).

Modelling conventions:
- JavaScript Date values in this program are day-granular UTC instants
  (every date is built with Date.UTC(year, month, day) at midnight).  We
  embed them as a structure of (year, month, day) integers carrying the
  canonical-range invariant that every real JS Date satisfies
  (1 <= month <= 12, 1 <= day <= 31).  Chronological comparison of such
  instants coincides with lexicographic comparison of the triples, which is
  how the order below is defined.  Differences of getTime() divided by
  86400000 ms are embedded as differences of civil day numbers
  (daysFromCivil, the standard Gregorian day-number algorithm).
- JS floating-point numbers are embedded as exact rationals; the spec's
  "within epsilon" statements hold exactly in this idealisation.
- Thrown exceptions become Except values: NoApplicableRatePeriod for the
  rate-resolver throw, fault for the TypeError produced by reading .date of
  undefined when the amortization schedule is empty.  There is deliberately
  no EmptySchedule error: the code has none.
-/

/-- A day-granular UTC date as JavaScript produces them: a civil triple in
canonical ranges. -/
structure JDate where
  year : Int
  month : Int
  day : Int
  valid : 1 ≤ month ∧ month ≤ 12 ∧ 1 ≤ day ∧ day ≤ 31

theorem JDate.ext_eq (a b : JDate) (hy : a.year = b.year) (hm : a.month = b.month)
    (hd : a.day = b.day) : a = b := by
  cases a
  cases b
  simp only at hy hm hd
  subst hy
  subst hm
  subst hd
  rfl

instance : DecidableEq JDate := fun a b =>
  decidable_of_iff (a.year = b.year ∧ a.month = b.month ∧ a.day = b.day)
    ⟨fun h => JDate.ext_eq a b h.1 h.2.1 h.2.2, fun h => by subst h; exact ⟨rfl, rfl, rfl⟩⟩

/-- Lexicographic (= chronological, for canonical dates) order. -/
def JDate.le (a b : JDate) : Prop :=
  a.year < b.year ∨ (a.year = b.year ∧
    (a.month < b.month ∨ (a.month = b.month ∧ a.day ≤ b.day)))

def JDate.lt (a b : JDate) : Prop :=
  a.year < b.year ∨ (a.year = b.year ∧
    (a.month < b.month ∨ (a.month = b.month ∧ a.day < b.day)))

instance : LE JDate := ⟨JDate.le⟩

instance : LT JDate := ⟨JDate.lt⟩

theorem JDate.le_def (a b : JDate) : (a ≤ b) = JDate.le a b := rfl

theorem JDate.lt_def (a b : JDate) : (a < b) = JDate.lt a b := rfl

instance : DecidableRel (fun a b : JDate => a ≤ b) := fun a b =>
  decidable_of_iff (a.year < b.year ∨ (a.year = b.year ∧
    (a.month < b.month ∨ (a.month = b.month ∧ a.day ≤ b.day)))) Iff.rfl

instance : DecidableRel (fun a b : JDate => a < b) := fun a b =>
  decidable_of_iff (a.year < b.year ∨ (a.year = b.year ∧
    (a.month < b.month ∨ (a.month = b.month ∧ a.day < b.day)))) Iff.rfl

instance : LinearOrder JDate where
  le := JDate.le
  lt := JDate.lt
  le_refl a := Or.inr ⟨rfl, Or.inr ⟨rfl, le_refl _⟩⟩
  le_trans a b c hab hbc := by
    simp only [JDate.le_def, JDate.le] at hab hbc ⊢
    omega
  le_antisymm a b hab hba := by
    simp only [JDate.le_def, JDate.le] at hab hba
    exact JDate.ext_eq a b (by omega) (by omega) (by omega)
  le_total a b := by
    simp only [JDate.le_def, JDate.le]
    omega
  lt_iff_le_not_le a b := by
    simp only [JDate.le_def, JDate.le, JDate.lt_def, JDate.lt]
    omega
  decidableLE := inferInstance
  decidableLT := inferInstance
  decidableEq := inferInstance

/-- The month counter used to reason about the calendar walk:
the number of whole months since year 0. -/
def monthIdx (d : JDate) : Int := 12 * d.year + (d.month - 1)

theorem monthIdx_mono {a b : JDate} (h : a ≤ b) : monthIdx a ≤ monthIdx b := by
  have ha := a.valid
  have hb := b.valid
  simp only [JDate.le_def, JDate.le] at h
  simp only [monthIdx]
  omega

/-- Moving to the first day of the following month:
the embedding of new Date(Date.UTC(y, m + 1, 1)) (with JS month overflow
normalisation). -/
def firstOfNextMonth (d : JDate) : JDate :=
  if h : d.month = 12 then
    ⟨d.year + 1, 1, 1, by norm_num⟩
  else
    ⟨d.year, d.month + 1, 1, by have := d.valid; omega⟩

theorem monthIdx_firstOfNextMonth (d : JDate) :
    monthIdx (firstOfNextMonth d) = monthIdx d + 1 := by
  have := d.valid
  rw [firstOfNextMonth]
  split
  · simp only [monthIdx]
    omega
  · simp only [monthIdx]
    omega

theorem firstOfNextMonth_le_iff (a b : JDate) :
    firstOfNextMonth a ≤ b ↔ monthIdx a + 1 ≤ monthIdx b := by
  have ha := a.valid
  have hb := b.valid
  rw [firstOfNextMonth]
  split
  · simp only [JDate.le_def, JDate.le, monthIdx]
    omega
  · simp only [JDate.le_def, JDate.le, monthIdx]
    omega

theorem JDate.le_of_parts {a b : JDate} (h : a ≤ b) :
    a.year < b.year ∨ (a.year = b.year ∧
      (a.month < b.month ∨ (a.month = b.month ∧ a.day ≤ b.day))) := h

/-- Leap years of the proleptic Gregorian calendar (as JS Date uses). -/
def isLeapYear (y : Int) : Bool :=
  (decide (Int.emod y 4 = 0) && decide (Int.emod y 100 ≠ 0)) || decide (Int.emod y 400 = 0)

def daysInMonth (y m : Int) : Int :=
  if m = 2 then (if isLeapYear y then 29 else 28)
  else if m = 4 ∨ m = 6 ∨ m = 9 ∨ m = 11 then 30
  else 31

theorem daysInMonth_pos (y m : Int) : 1 ≤ daysInMonth y m := by
  rw [daysInMonth]
  split
  · split <;> norm_num
  · split <;> norm_num

theorem daysInMonth_le (y m : Int) : daysInMonth y m ≤ 31 := by
  rw [daysInMonth]
  split
  · split <;> norm_num
  · split <;> norm_num

/-- Adding one day (the embedding of getTime() + 24*60*60*1000 on a
day-granular date). -/
def addOneDay (d : JDate) : JDate :=
  if h : d.day < daysInMonth d.year d.month then
    ⟨d.year, d.month, d.day + 1,
      by have hv := d.valid; have h31 := daysInMonth_le d.year d.month; omega⟩
  else firstOfNextMonth d

/-- Civil day number of a Gregorian date (days since 1970-01-01), the
standard algorithm; this embeds getTime() / 86400000 of a day-granular JS
Date. -/
def daysFromCivil (y m d : Int) : Int :=
  let y2 := if m ≤ 2 then y - 1 else y
  let era := Int.ediv y2 400
  let yoe := y2 - era * 400
  let mp := Int.emod (m + 9) 12
  let doy := Int.ediv (153 * mp + 2) 5 + (d - 1)
  let doe := yoe * 365 + Int.ediv yoe 4 - Int.ediv yoe 100 + doy
  era * 146097 + doe - 719468

def JDate.time (d : JDate) : Int := daysFromCivil d.year d.month d.day

/-! ## Data model (models.ts) -/

inductive Currency where
  | USD
  | EUR
deriving DecidableEq, Repr

/-- An interest rate period for a bond; rate is the annual rate as a
decimal. -/
structure InterestRatePeriod where
  startDate : JDate
  endDate : JDate
  rate : ℚ

/-- An amortization payment; percentage of principal as a decimal. -/
structure AmortizationPayment where
  date : JDate
  percentage : ℚ

/-- A bond with its characteristics. -/
structure Bond where
  id : String
  name : String
  currency : Currency
  issueDate : JDate
  maxAmount : ℚ
  interestRatePeriods : List InterestRatePeriod
  amortizationSchedule : List AmortizationPayment
  interestPaymentMonths : List Int

/-- One cash flow payment produced by the generator. -/
structure CashFlowPayment where
  date : JDate
  bondId : String
  principal : ℚ
  interest : ℚ
  total : ℚ
  currency : Currency
deriving DecidableEq

/-- Cash flows aggregated by period. -/
structure AggregatedCashFlow where
  period : String
  usdPrincipal : ℚ
  usdInterest : ℚ
  usdTotal : ℚ
  eurPrincipal : ℚ
  eurInterest : ℚ
  eurTotal : ℚ

/-- Runtime failures of the calculator: the explicit throw in
getInterestRate, and the TypeError fault from reading the last schedule
entry of an empty amortizationSchedule.  The code has no EmptySchedule
error. -/
inductive CalcError where
  | noApplicableRatePeriod
  | fault
deriving DecidableEq

/-! ## Rate resolver and principal tracker -/

/-- Embedding of getInterestRate: find the period with
startDate <= date < endDate (inclusive start, exclusive end); if none, and
date equals the last period's endDate exactly, use the last period;
otherwise throw. -/
def getInterestRate (bond : Bond) (date : JDate) : Except CalcError ℚ :=
  match bond.interestRatePeriods.find?
      (fun p => decide (p.startDate ≤ date) && decide (date < p.endDate)) with
  | some period => .ok period.rate
  | none =>
    match bond.interestRatePeriods.getLast? with
    | some lastPeriod =>
      if date = lastPeriod.endDate then .ok lastPeriod.rate
      else .error .noApplicableRatePeriod
    | none => .error .noApplicableRatePeriod

/-- Embedding of getOutstandingPrincipal: full principal before the issue
date, otherwise initialPrincipal times one minus the sum of the percentages
of the amortization payments due on or before the date. -/
def getOutstandingPrincipal (bond : Bond) (date : JDate) (initialPrincipal : ℚ) : ℚ :=
  if date < bond.issueDate then initialPrincipal
  else
    initialPrincipal *
      (1 - ((bond.amortizationSchedule.filter (fun payment => decide (payment.date ≤ date))).map
        (fun payment => payment.percentage)).sum)

/-! ## Payment date scheduler (the first half of calculateCashFlows) -/

/-- The day-9 payment date of the month of the given date: the embedding of
new Date(Date.UTC(cur.getUTCFullYear(), cur.getUTCMonth(), 9)). -/
def paymentDay9 (cur : JDate) : JDate :=
  ⟨cur.year, cur.month, 9, by
    have h := cur.valid
    exact ⟨h.1, h.2.1, by norm_num, by norm_num⟩⟩

/-- One iteration step of the JS while-loop over calendar months, expressed
with fuel; monthWalk below supplies exactly enough fuel for the canonical
dates the program uses, so the fueled recursion coincides with the
unbounded JS loop.  The source reads getMonth() + 1 for the month test and
getUTCFullYear/getUTCMonth for the candidate; in a UTC process (all dates
here are midnight-UTC instants) both are the civil month, embedded as
.month. -/
def monthWalkAux (months : List Int) (startDate endDate lastDate : JDate) :
    Nat → JDate → List JDate
  | 0, _ => []
  | fuel + 1, currentDate =>
    if currentDate ≤ lastDate then
      (if currentDate.month ∈ months ∧ startDate ≤ paymentDay9 currentDate ∧
          paymentDay9 currentDate ≤ endDate
        then [paymentDay9 currentDate] else []) ++
      monthWalkAux months startDate endDate lastDate fuel (firstOfNextMonth currentDate)
    else []

/-- The interest payment dates generated by the month walk from firstDate
to lastDate. -/
def monthWalk (months : List Int) (startDate endDate firstDate lastDate : JDate) :
    List JDate :=
  monthWalkAux months startDate endDate lastDate
    (Int.toNat (monthIdx lastDate + 1 - monthIdx firstDate)) firstDate

/-- The scheduled payment dates of calculateCashFlows: interest dates from
the month walk plus amortization dates in the window, de-duplicated and
sorted ascending.  Reading the last schedule entry of an empty schedule is
the JS fault. -/
def scheduledDates (bond : Bond) (startDate endDate : JDate) :
    Except CalcError (List JDate) :=
  match bond.amortizationSchedule.getLast? with
  | none => .error .fault
  | some lastAmortization =>
    let firstDate := max bond.issueDate startDate
    let lastDate := min (addOneDay lastAmortization.date) endDate
    let interestDates := monthWalk bond.interestPaymentMonths startDate endDate firstDate lastDate
    let amortDates := (bond.amortizationSchedule.filter
      (fun payment => decide (startDate ≤ payment.date) && decide (payment.date ≤ endDate))).map
      (fun payment => payment.date)
    .ok (List.insertionSort (fun a b => a ≤ b) ((interestDates ++ amortDates).dedup))

/-! ## Cash flow generator (the second half of calculateCashFlows) -/

/-- The principal paid at a date out of a given schedule: initialPrincipal
times the percentage of the amortization entry at exactly that date, else 0. -/
def principalFor (sched : List AmortizationPayment) (initialPrincipal : ℚ) (d : JDate) : ℚ :=
  match sched.find? (fun payment => decide (payment.date = d)) with
  | some amortizationPayment => initialPrincipal * amortizationPayment.percentage
  | none => 0

/-- The principal component paid at a date: initialPrincipal times the
percentage of the amortization entry at exactly that date, else 0. -/
def principalPaymentAt (bond : Bond) (initialPrincipal : ℚ) (d : JDate) : ℚ :=
  principalFor bond.amortizationSchedule initialPrincipal d

/-- The walk over the sorted payment dates, carrying outstandingPrincipal
and lastPaymentDate; a rate-resolver throw aborts the whole run. -/
def cashFlowLoop (bond : Bond) (initialPrincipal : ℚ) :
    List JDate → ℚ → JDate → Except CalcError (List CashFlowPayment)
  | [], _, _ => .ok []
  | paymentDate :: rest, outstandingPrincipal, lastPaymentDate =>
    match getInterestRate bond paymentDate with
    | .error e => .error e
    | .ok interestRate =>
      let principalPayment := principalPaymentAt bond initialPrincipal paymentDate
      let daysSinceLastPayment : ℚ := ((paymentDate.time - lastPaymentDate.time : Int) : ℚ)
      let interestPayment := outstandingPrincipal * interestRate * (daysSinceLastPayment / 360)
      match cashFlowLoop bond initialPrincipal rest
          (outstandingPrincipal - principalPayment) paymentDate with
      | .error e => .error e
      | .ok laterFlows =>
        .ok ({ date := paymentDate, bondId := bond.id, principal := principalPayment,
               interest := interestPayment, total := principalPayment + interestPayment,
               currency := bond.currency } :: laterFlows)

/-- Embedding of calculateCashFlows. -/
def calculateCashFlows (bond : Bond) (initialPrincipal : ℚ) (startDate endDate : JDate) :
    Except CalcError (List CashFlowPayment) :=
  match scheduledDates bond startDate endDate with
  | .error e => .error e
  | .ok sortedDates => cashFlowLoop bond initialPrincipal sortedDates initialPrincipal bond.issueDate

/-! ## Bond reference data (bondData.ts) -/

/-- Helper to create a date, mirroring createDate(year, month, day) =
new Date(Date.UTC(year, month - 1, day)) with a 1-based month. -/
def createDate (y m d : Int) (h : 1 ≤ m ∧ m ≤ 12 ∧ 1 ≤ d ∧ d ≤ 31) : JDate := ⟨y, m, d, h⟩

/-- Common issue date for all bonds: 2020-09-04. -/
def ISSUE_DATE : JDate := createDate 2020 9 4 (by norm_num)

/-- Common interest payment months: January and July. -/
def INTEREST_PAYMENT_MONTHS : List Int := [1, 7]

/-- Day-9 payment date in January or July of a year, as the schedule
builders produce. -/
def semiDate (y : Int) (jan : Bool) : JDate :=
  ⟨y, if jan then 1 else 7, 9, by cases jan <;> norm_num⟩

/-- Embedding of the Array.from({length: n}, (_, i) => ...) schedule
builders: n equal semi-annual payments starting in the given year, in
January when firstJan (otherwise July), alternating. -/
def semiAnnualSchedule (firstYear : Int) (firstJan : Bool) (n : Nat) (pct : ℚ) :
    List AmortizationPayment :=
  (List.range n).map fun i =>
    ⟨semiDate (firstYear + (i / 2 : Nat)) (if i % 2 = 0 then firstJan else !firstJan), pct⟩

def usdStepUp2030 : Bond :=
  { id := "USD-STEP-UP-2030"
    name := "Bonos Globales Step Up 2030 (USD)"
    currency := .USD
    issueDate := ISSUE_DATE
    maxAmount := 16830
    interestRatePeriods :=
      [ ⟨ISSUE_DATE, createDate 2021 7 9 (by norm_num), 0.00125⟩,
        ⟨createDate 2021 7 9 (by norm_num), createDate 2023 7 9 (by norm_num), 0.005⟩,
        ⟨createDate 2023 7 9 (by norm_num), createDate 2027 7 9 (by norm_num), 0.0075⟩,
        ⟨createDate 2027 7 9 (by norm_num), createDate 2030 7 9 (by norm_num), 0.0175⟩ ]
    amortizationSchedule :=
      ⟨createDate 2024 7 9 (by norm_num), 0.04⟩ :: semiAnnualSchedule 2025 true 12 0.08
    interestPaymentMonths := INTEREST_PAYMENT_MONTHS }

def usdStepUp2035 : Bond :=
  { id := "USD-STEP-UP-2035"
    name := "Bonos Globales Step Up 2035 (USD)"
    currency := .USD
    issueDate := ISSUE_DATE
    maxAmount := 25689
    interestRatePeriods :=
      [ ⟨ISSUE_DATE, createDate 2021 7 9 (by norm_num), 0.00125⟩,
        ⟨createDate 2021 7 9 (by norm_num), createDate 2022 7 9 (by norm_num), 0.01125⟩,
        ⟨createDate 2022 7 9 (by norm_num), createDate 2023 7 9 (by norm_num), 0.015⟩,
        ⟨createDate 2023 7 9 (by norm_num), createDate 2024 7 9 (by norm_num), 0.03625⟩,
        ⟨createDate 2024 7 9 (by norm_num), createDate 2027 7 9 (by norm_num), 0.04125⟩,
        ⟨createDate 2027 7 9 (by norm_num), createDate 2028 7 9 (by norm_num), 0.0475⟩,
        ⟨createDate 2028 7 9 (by norm_num), createDate 2035 7 9 (by norm_num), 0.05⟩ ]
    amortizationSchedule := semiAnnualSchedule 2031 true 10 0.1
    interestPaymentMonths := INTEREST_PAYMENT_MONTHS }

def usdStepUp2038 : Bond :=
  { id := "USD-STEP-UP-2038"
    name := "Bonos Globales Step Up 2038 (USD)"
    currency := .USD
    issueDate := ISSUE_DATE
    maxAmount := 12414
    interestRatePeriods :=
      [ ⟨ISSUE_DATE, createDate 2021 7 9 (by norm_num), 0.00125⟩,
        ⟨createDate 2021 7 9 (by norm_num), createDate 2022 7 9 (by norm_num), 0.02⟩,
        ⟨createDate 2022 7 9 (by norm_num), createDate 2023 7 9 (by norm_num), 0.03875⟩,
        ⟨createDate 2023 7 9 (by norm_num), createDate 2024 7 9 (by norm_num), 0.0425⟩,
        ⟨createDate 2024 7 9 (by norm_num), createDate 2038 7 9 (by norm_num), 0.05⟩ ]
    amortizationSchedule := semiAnnualSchedule 2027 false 22 (1 / 22)
    interestPaymentMonths := INTEREST_PAYMENT_MONTHS }

def usdStepUp2041 : Bond :=
  { id := "USD-STEP-UP-2041"
    name := "Bonos Globales Step Up 2041 (USD)"
    currency := .USD
    issueDate := ISSUE_DATE
    maxAmount := 18633
    interestRatePeriods :=
      [ ⟨ISSUE_DATE, createDate 2021 7 9 (by norm_num), 0.00125⟩,
        ⟨createDate 2021 7 9 (by norm_num), createDate 2022 7 9 (by norm_num), 0.025⟩,
        ⟨createDate 2022 7 9 (by norm_num), createDate 2029 7 9 (by norm_num), 0.035⟩,
        ⟨createDate 2029 7 9 (by norm_num), createDate 2041 7 9 (by norm_num), 0.04875⟩ ]
    amortizationSchedule := semiAnnualSchedule 2028 true 28 (1 / 28)
    interestPaymentMonths := INTEREST_PAYMENT_MONTHS }

def usdStepUp2046 : Bond :=
  { id := "USD-STEP-UP-2046"
    name := "Bonos Globales Step Up 2046 (USD)"
    currency := .USD
    issueDate := ISSUE_DATE
    maxAmount := 45686
    interestRatePeriods :=
      [ ⟨ISSUE_DATE, createDate 2021 7 9 (by norm_num), 0.00125⟩,
        ⟨createDate 2021 7 9 (by norm_num), createDate 2022 7 9 (by norm_num), 0.01125⟩,
        ⟨createDate 2022 7 9 (by norm_num), createDate 2023 7 9 (by norm_num), 0.015⟩,
        ⟨createDate 2023 7 9 (by norm_num), createDate 2024 7 9 (by norm_num), 0.03625⟩,
        ⟨createDate 2024 7 9 (by norm_num), createDate 2027 7 9 (by norm_num), 0.04125⟩,
        ⟨createDate 2027 7 9 (by norm_num), createDate 2028 7 9 (by norm_num), 0.04375⟩,
        ⟨createDate 2028 7 9 (by norm_num), createDate 2046 7 9 (by norm_num), 0.05⟩ ]
    amortizationSchedule := semiAnnualSchedule 2025 true 44 (1 / 44)
    interestPaymentMonths := INTEREST_PAYMENT_MONTHS }

def eurStepUp2030 : Bond :=
  { id := "EUR-STEP-UP-2030"
    name := "Bonos Globales Step Up 2030 (EUR)"
    currency := .EUR
    issueDate := ISSUE_DATE
    maxAmount := 3100
    interestRatePeriods :=
      [ ⟨ISSUE_DATE, createDate 2030 7 9 (by norm_num), 0.00125⟩ ]
    amortizationSchedule :=
      ⟨createDate 2024 7 9 (by norm_num), 0.04⟩ :: semiAnnualSchedule 2025 true 12 0.08
    interestPaymentMonths := INTEREST_PAYMENT_MONTHS }

def BONDS : List Bond :=
  [usdStepUp2030, usdStepUp2035, usdStepUp2038, usdStepUp2041, usdStepUp2046, eurStepUp2030]

def getAllBonds : List Bond := BONDS

def getBondById (id : String) : Option Bond :=
  BONDS.find? (fun bond => decide (bond.id = id))

/-! ## Multi-instrument aggregator (calculateAllCashFlows) -/

/-- The forEach over the bond list: skip non-positive requested amounts,
concatenate generator outputs; a thrown error propagates. -/
def calculateAllCashFlowsAux (initialPrincipals : String → ℚ) (startDate endDate : JDate) :
    List Bond → Except CalcError (List CashFlowPayment)
  | [] => .ok []
  | bond :: rest =>
    if 0 < initialPrincipals bond.id then
      match calculateCashFlows bond (initialPrincipals bond.id) startDate endDate with
      | .error e => .error e
      | .ok bondCashFlows =>
        match calculateAllCashFlowsAux initialPrincipals startDate endDate rest with
        | .error e => .error e
        | .ok laterFlows => .ok (bondCashFlows ++ laterFlows)
    else calculateAllCashFlowsAux initialPrincipals startDate endDate rest

instance : DecidableRel (fun a b : CashFlowPayment => a.date ≤ b.date) :=
  fun a b => inferInstanceAs (Decidable (a.date ≤ b.date))

instance : IsTotal CashFlowPayment (fun a b => a.date ≤ b.date) :=
  ⟨fun a b => le_total a.date b.date⟩

instance : IsTrans CashFlowPayment (fun a b => a.date ≤ b.date) :=
  ⟨fun _ _ _ hab hbc => le_trans hab hbc⟩

/-- Embedding of calculateAllCashFlows: the requested amounts are a total
map from identifiers to amounts (a missing JS entry is the 0 of
initialPrincipals[bond.id] || 0); the merged result is sorted ascending by
date. -/
def calculateAllCashFlows (initialPrincipals : String → ℚ) (startDate endDate : JDate) :
    Except CalcError (List CashFlowPayment) :=
  match calculateAllCashFlowsAux initialPrincipals startDate endDate getAllBonds with
  | .error e => .error e
  | .ok allCashFlows =>
    .ok (List.insertionSort (fun a b => a.date ≤ b.date) allCashFlows)

/-! ## Period aggregator (aggregateCashFlows) -/

inductive PeriodType where
  | month
  | quarter
  | halfYear
  | year
deriving DecidableEq

/-- Zero-padded two-digit month, mirroring String(...).padStart(2, "0"). -/
def pad2 (m : Int) : String :=
  if m < 10 then "0" ++ toString m else toString m

/-- The period label of a payment date. -/
def periodLabel (periodType : PeriodType) (date : JDate) : String :=
  match periodType with
  | .month => toString date.year ++ "-" ++ pad2 date.month
  | .quarter => toString date.year ++ "-Q" ++ toString (Int.ediv (date.month - 1) 3 + 1)
  | .halfYear => toString date.year ++ (if date.month - 1 < 6 then "-H1" else "-H2")
  | .year => toString date.year

/-- A freshly initialised period bucket. -/
def emptyAggregated (period : String) : AggregatedCashFlow :=
  { period := period, usdPrincipal := 0, usdInterest := 0, usdTotal := 0,
    eurPrincipal := 0, eurInterest := 0, eurTotal := 0 }

/-- Adding one cash flow into a bucket, by its currency. -/
def addCashFlowTo (a : AggregatedCashFlow) (cashFlow : CashFlowPayment) : AggregatedCashFlow :=
  if cashFlow.currency = Currency.USD then
    { a with usdPrincipal := a.usdPrincipal + cashFlow.principal,
             usdInterest := a.usdInterest + cashFlow.interest,
             usdTotal := a.usdTotal + cashFlow.total }
  else
    { a with eurPrincipal := a.eurPrincipal + cashFlow.principal,
             eurInterest := a.eurInterest + cashFlow.interest,
             eurTotal := a.eurTotal + cashFlow.total }

/-- The aggregated record keyed by period label (a JS object with string
keys, in insertion order): initialise the bucket if absent, then add. -/
def upsertAggregated (key : String) (cashFlow : CashFlowPayment) :
    List (String × AggregatedCashFlow) → List (String × AggregatedCashFlow)
  | [] => [(key, addCashFlowTo (emptyAggregated key) cashFlow)]
  | (k, a) :: rest =>
    if k = key then (k, addCashFlowTo a cashFlow) :: rest
    else (k, a) :: upsertAggregated key cashFlow rest

instance : DecidableRel (fun a b : AggregatedCashFlow => a.period ≤ b.period) :=
  fun a b => inferInstanceAs (Decidable (a.period ≤ b.period))

/-- Embedding of aggregateCashFlows: bucket every flow by period label and
currency, then list the buckets sorted by period label. -/
def aggregateCashFlows (cashFlows : List CashFlowPayment) (periodType : PeriodType) :
    List AggregatedCashFlow :=
  let aggregated := cashFlows.foldl
    (fun acc cashFlow => upsertAggregated (periodLabel periodType cashFlow.date) cashFlow acc) []
  List.insertionSort (fun a b => a.period ≤ b.period) (aggregated.map (fun e => e.2))

/-! ## Present value engine (calculatePresentValue) -/

/-- Embedding of calculatePresentValue.  Math.pow on floats has no exact
rational counterpart, so the discounting primitive is a parameter pow; the
code computes discountFactor = pow (1 + discountRate) (-yearsFraction) with
yearsFraction = elapsed days / 365.25. -/
def calculatePresentValue (pow : ℚ → ℚ → ℚ) (cashFlows : List CashFlowPayment)
    (discountRate : ℚ) (referenceDate : JDate) (usdToEurRate : ℚ) : ℚ :=
  cashFlows.foldl
    (fun presentValue cashFlow =>
      if cashFlow.date < referenceDate then presentValue
      else
        let yearsFraction : ℚ := ((cashFlow.date.time - referenceDate.time : Int) : ℚ) / 365.25
        let discountFactor := pow (1 + discountRate) (-yearsFraction)
        let cashFlowValue :=
          if cashFlow.currency = Currency.EUR then cashFlow.total / usdToEurRate
          else cashFlow.total
        presentValue + cashFlowValue * discountFactor)
    0

/-! ## General utilities for the statements and proofs -/

instance {ε α : Type} [DecidableEq ε] [DecidableEq α] : DecidableEq (Except ε α) := fun a b =>
  match a, b with
  | .ok x, .ok y => decidable_of_iff (x = y)
      ⟨fun h => by subst h; rfl, fun h => by cases h; rfl⟩
  | .error x, .error y => decidable_of_iff (x = y)
      ⟨fun h => by subst h; rfl, fun h => by cases h; rfl⟩
  | .ok _, .error _ => isFalse (fun h => by cases h)
  | .error _, .ok _ => isFalse (fun h => by cases h)

def epochDate : JDate := ⟨1970, 1, 1, by norm_num⟩

/-- A default cash flow, used only as the out-of-range value of List.getD
in indexed statements. -/
def cfDefault : CashFlowPayment :=
  { date := epochDate, bondId := "", principal := 0, interest := 0, total := 0,
    currency := .USD }

/-- The inclusive integer range lo..hi as a list. -/
def intRangeIncl (lo hi : Int) : List Int :=
  (List.range (hi + 1 - lo).toNat).map (fun (i : Nat) => lo + (i : Int))

theorem mem_intRangeIncl {lo hi k : Int} : k ∈ intRangeIncl lo hi ↔ lo ≤ k ∧ k ≤ hi := by
  rw [intRangeIncl, List.mem_map]
  constructor
  · rintro ⟨i, hmem, rfl⟩
    rw [List.mem_range] at hmem
    omega
  · intro h
    refine ⟨(k - lo).toNat, ?_, by omega⟩
    rw [List.mem_range]
    omega

theorem intRangeIncl_eq_nil {lo hi : Int} (h : hi < lo) : intRangeIncl lo hi = [] := by
  rw [intRangeIncl]
  have h0 : (hi + 1 - lo).toNat = 0 := by omega
  rw [h0]
  rfl

theorem intRangeIncl_eq_cons {lo hi : Int} (h : lo ≤ hi) :
    intRangeIncl lo hi = lo :: intRangeIncl (lo + 1) hi := by
  rw [intRangeIncl, intRangeIncl]
  have h1 : (hi + 1 - lo).toNat = (hi + 1 - (lo + 1)).toNat + 1 := by omega
  rw [h1, List.range_succ_eq_map]
  simp only [List.map_cons, List.map_map]
  congr 1
  · simp
  · refine List.map_congr_left (fun i _ => ?_)
    simp only [Function.comp_apply]
    push_cast
    ring

/-- The day-9 date of the calendar month with month counter k: the
spec-side description of a candidate interest date. -/
def specCandidate (k : Int) : JDate :=
  ⟨k / 12, k % 12 + 1, 9, by omega⟩

theorem paymentDay9_eq_specCandidate (d : JDate) :
    paymentDay9 d = specCandidate (monthIdx d) := by
  have hv := d.valid
  have hdiv : monthIdx d / 12 = d.year := by
    simp only [monthIdx]
    omega
  have hmod : monthIdx d % 12 + 1 = d.month := by
    simp only [monthIdx]
    omega
  exact JDate.ext_eq _ _ (by simp [paymentDay9, specCandidate, hdiv])
    (by simp [paymentDay9, specCandidate, hmod]) (by simp [paymentDay9, specCandidate])

theorem monthIdx_decode_month (d : JDate) : monthIdx d % 12 + 1 = d.month := by
  have hv := d.valid
  simp only [monthIdx]
  omega

/-! ## Characterisation of the month walk -/

/-- The spec-side test for a candidate month (by month counter k): month
number in interestPaymentMonths and the day-9 candidate inside the
requested window. -/
def specIntFilter (months : List Int) (startDate endDate : JDate) (k : Int) : Option JDate :=
  if (k % 12 + 1) ∈ months ∧ startDate ≤ specCandidate k ∧ specCandidate k ≤ endDate
  then some (specCandidate k) else none

theorem monthWalkAux_eq (months : List Int) (sD eD lastD : JDate) :
    ∀ (fuel : Nat) (cur : JDate), (monthIdx lastD + 1 - monthIdx cur).toNat ≤ fuel →
      monthWalkAux months sD eD lastD fuel cur =
        if cur ≤ lastD then
          (intRangeIncl (monthIdx cur) (monthIdx lastD)).filterMap
            (specIntFilter months sD eD)
        else [] := by
  intro fuel
  induction fuel with
  | zero =>
    intro cur hfuel
    have hnot : ¬ cur ≤ lastD := by
      intro hle
      have := monthIdx_mono hle
      omega
    simp [monthWalkAux, hnot]
  | succ fuel ih =>
    intro cur hfuel
    by_cases hle : cur ≤ lastD
    · have hmono := monthIdx_mono hle
      have hnextIdx := monthIdx_firstOfNextMonth cur
      have hcand : specCandidate (monthIdx cur) = paymentDay9 cur :=
        (paymentDay9_eq_specCandidate cur).symm
      have hmon : monthIdx cur % 12 + 1 = cur.month := monthIdx_decode_month cur
      have hfb : (monthIdx lastD + 1 - monthIdx (firstOfNextMonth cur)).toNat ≤ fuel := by
        rw [hnextIdx]
        omega
      simp only [monthWalkAux, if_pos hle]
      rw [intRangeIncl_eq_cons hmono, ih (firstOfNextMonth cur) hfb, hnextIdx]
      have htail : (if firstOfNextMonth cur ≤ lastD then
          (intRangeIncl (monthIdx cur + 1) (monthIdx lastD)).filterMap
            (specIntFilter months sD eD)
        else []) =
          (intRangeIncl (monthIdx cur + 1) (monthIdx lastD)).filterMap
            (specIntFilter months sD eD) := by
        by_cases hnext : firstOfNextMonth cur ≤ lastD
        · rw [if_pos hnext]
        · rw [if_neg hnext]
          have hlt : monthIdx lastD < monthIdx cur + 1 := by
            by_contra hcon
            exact hnext ((firstOfNextMonth_le_iff cur lastD).mpr (by omega))
          rw [intRangeIncl_eq_nil hlt, List.filterMap_nil]
      rw [htail]
      by_cases hc : cur.month ∈ months ∧ sD ≤ paymentDay9 cur ∧ paymentDay9 cur ≤ eD
      · rw [if_pos hc, List.filterMap_cons_some
          (show specIntFilter months sD eD (monthIdx cur) = some (paymentDay9 cur) by
            simp only [specIntFilter, hmon, hcand]
            rw [if_pos hc])]
        rfl
      · rw [if_neg hc, List.filterMap_cons_none
          (show specIntFilter months sD eD (monthIdx cur) = none by
            simp only [specIntFilter, hmon, hcand]
            rw [if_neg hc])]
        rfl
    · simp [monthWalkAux, hle]

theorem monthWalk_eq (months : List Int) (sD eD first lastD : JDate) :
    monthWalk months sD eD first lastD =
      if first ≤ lastD then
        (intRangeIncl (monthIdx first) (monthIdx lastD)).filterMap
          (specIntFilter months sD eD)
      else [] :=
  monthWalkAux_eq months sD eD lastD _ first (le_refl _)

/-! ## Characterisation of scheduledDates -/

/-- The date of the last amortization schedule entry (the claim's
lastAmortizationDate); meaningful when the schedule is non-empty. -/
def lastAmortizationDate (bond : Bond) : JDate :=
  (bond.amortizationSchedule.getLastD ⟨epochDate, 0⟩).date

/-- The spec-side description of the interest candidate dates of claim C2:
the day-9 candidates of every calendar month between max(issueDate,
startDate) and min(endDate, lastAmortizationDate + 1 day) whose month
number is in interestPaymentMonths, kept when inside the window. -/
def specInterestDates (bond : Bond) (startDate endDate : JDate) : List JDate :=
  let firstDate := max bond.issueDate startDate
  let lastDate := min (addOneDay (lastAmortizationDate bond)) endDate
  if firstDate ≤ lastDate then
    (intRangeIncl (monthIdx firstDate) (monthIdx lastDate)).filterMap
      (specIntFilter bond.interestPaymentMonths startDate endDate)
  else []

theorem scheduledDates_eq (bond : Bond) (sD eD : JDate) (la : AmortizationPayment)
    (hla : bond.amortizationSchedule.getLast? = some la) :
    scheduledDates bond sD eD = .ok (List.insertionSort (fun a b => a ≤ b)
      ((monthWalk bond.interestPaymentMonths sD eD (max bond.issueDate sD)
          (min (addOneDay la.date) eD) ++
        (bond.amortizationSchedule.filter
          (fun payment => decide (sD ≤ payment.date) && decide (payment.date ≤ eD))).map
          (fun payment => payment.date)).dedup)) := by
  unfold scheduledDates
  rw [hla]

theorem scheduledDates_fault_iff (bond : Bond) (sD eD : JDate) :
    scheduledDates bond sD eD = .error .fault ↔ bond.amortizationSchedule = [] := by
  unfold scheduledDates
  cases h : bond.amortizationSchedule.getLast? with
  | none =>
    rw [List.getLast?_eq_none_iff] at h
    simp [h]
  | some la =>
    have hne : bond.amortizationSchedule ≠ [] := by
      intro hnil
      rw [hnil] at h
      cases h
    simp [hne]

theorem lastAmortizationDate_eq {bond : Bond} {la : AmortizationPayment}
    (hla : bond.amortizationSchedule.getLast? = some la) :
    lastAmortizationDate bond = la.date := by
  unfold lastAmortizationDate
  rw [List.getLastD_eq_getLast?, hla]
  rfl

theorem mem_amortDates {bond : Bond} {sD eD d : JDate} :
    (d ∈ (bond.amortizationSchedule.filter
        (fun payment => decide (sD ≤ payment.date) && decide (payment.date ≤ eD))).map
        (fun payment => payment.date)) ↔
      ∃ a ∈ bond.amortizationSchedule, a.date = d ∧ sD ≤ d ∧ d ≤ eD := by
  rw [List.mem_map]
  constructor
  · rintro ⟨a, ha, rfl⟩
    rw [List.mem_filter] at ha
    obtain ⟨hmem, hcond⟩ := ha
    rw [Bool.and_eq_true, decide_eq_true_eq, decide_eq_true_eq] at hcond
    exact ⟨a, hmem, rfl, hcond.1, hcond.2⟩
  · rintro ⟨a, hmem, rfl, h1, h2⟩
    refine ⟨a, ?_, rfl⟩
    rw [List.mem_filter]
    exact ⟨hmem, by rw [Bool.and_eq_true, decide_eq_true_eq, decide_eq_true_eq]; exact ⟨h1, h2⟩⟩

theorem sortDedup_spec (L : List JDate) :
    (List.insertionSort (fun a b : JDate => a ≤ b) L.dedup).Nodup ∧
      List.Sorted (fun a b : JDate => a < b)
        (List.insertionSort (fun a b : JDate => a ≤ b) L.dedup) ∧
      ∀ d, d ∈ List.insertionSort (fun a b : JDate => a ≤ b) L.dedup ↔ d ∈ L := by
  have hperm := List.perm_insertionSort (fun a b : JDate => a ≤ b) L.dedup
  have hnodup : (List.insertionSort (fun a b : JDate => a ≤ b) L.dedup).Nodup :=
    hperm.nodup_iff.mpr (List.nodup_dedup L)
  refine ⟨hnodup, List.Sorted.lt_of_le (List.sorted_insertionSort _ _) hnodup, fun d => ?_⟩
  rw [hperm.mem_iff, List.mem_dedup]

/-- The full characterisation of the scheduler output used by C1, C2, C5:
no duplicates, strictly ascending, and membership is exactly the union of
the two date sources. -/
theorem scheduledDates_ok_spec {bond : Bond} {sD eD : JDate} {dates : List JDate}
    (h : scheduledDates bond sD eD = .ok dates) :
    dates.Nodup ∧ List.Sorted (fun a b : JDate => a < b) dates ∧
      ∀ d, d ∈ dates ↔ (d ∈ specInterestDates bond sD eD ∨
        ∃ a ∈ bond.amortizationSchedule, a.date = d ∧ sD ≤ d ∧ d ≤ eD) := by
  cases hla : bond.amortizationSchedule.getLast? with
  | none =>
    unfold scheduledDates at h
    rw [hla] at h
    cases h
  | some la =>
    rw [scheduledDates_eq bond sD eD la hla] at h
    injection h with hx
    subst hx
    obtain ⟨h1, h2, h3⟩ := sortDedup_spec
      (monthWalk bond.interestPaymentMonths sD eD (max bond.issueDate sD)
          (min (addOneDay la.date) eD) ++
        (bond.amortizationSchedule.filter
          (fun payment => decide (sD ≤ payment.date) && decide (payment.date ≤ eD))).map
          (fun payment => payment.date))
    refine ⟨h1, h2, fun d => (h3 d).trans ?_⟩
    rw [List.mem_append, mem_amortDates]
    have hwalk : (d ∈ monthWalk bond.interestPaymentMonths sD eD (max bond.issueDate sD)
        (min (addOneDay la.date) eD)) ↔ d ∈ specInterestDates bond sD eD := by
      rw [monthWalk_eq, specInterestDates, lastAmortizationDate_eq hla]
    rw [hwalk]

/-! ## Characterisation of the generator loop -/

theorem getInterestRate_ne_fault (bond : Bond) (d : JDate) :
    getInterestRate bond d ≠ .error .fault := by
  unfold getInterestRate
  split
  · simp
  · split
    · split
      · simp
      · simp
    · simp

theorem cashFlowLoop_principal_sum (bond : Bond) (P : ℚ) :
    ∀ (dates : List JDate) (out : ℚ) (lastPay : JDate) (flows : List CashFlowPayment),
      cashFlowLoop bond P dates out lastPay = .ok flows →
      (flows.map (fun f => f.principal)).sum =
        (dates.map (principalPaymentAt bond P)).sum := by
  intro dates
  induction dates with
  | nil =>
    intro out lastPay flows h
    simp only [cashFlowLoop] at h
    injection h with hx
    subst hx
    simp
  | cons d rest ih =>
    intro out lastPay flows h
    simp only [cashFlowLoop] at h
    split at h
    · cases h
    · split at h
      · cases h
      · injection h with hx
        subst hx
        rename_i rate hr laterFlows hrec
        simp only [List.map_cons, List.sum_cons]
        rw [ih _ _ _ hrec]

theorem cashFlowLoop_ne_fault (bond : Bond) (P : ℚ) :
    ∀ (dates : List JDate) (out : ℚ) (lastPay : JDate),
      cashFlowLoop bond P dates out lastPay ≠ .error .fault := by
  intro dates
  induction dates with
  | nil =>
    intro out lastPay h
    simp only [cashFlowLoop] at h
    exact Except.noConfusion h
  | cons d rest ih =>
    intro out lastPay h
    simp only [cashFlowLoop] at h
    split at h
    · rename_i e hr
      injection h with hx
      subst hx
      exact getInterestRate_ne_fault bond d hr
    · split at h
      · rename_i rate hr e hrec
        injection h with hx
        subst hx
        exact ih _ _ hrec
      · cases h

/-- Pointwise characterisation of the generator loop: the i-th emitted
payment is at the i-th scheduled date, its principal is the amortization
principal at that date, its interest is computed from the outstanding
principal (the seed minus all previously paid principal), the rate at that
date, and the exact days since the previous scheduled date (the seed
lastPay for the first payment). -/
theorem cashFlowLoop_spec (bond : Bond) (P : ℚ) :
    ∀ (dates : List JDate) (out : ℚ) (lastPay : JDate) (flows : List CashFlowPayment),
      cashFlowLoop bond P dates out lastPay = .ok flows →
      flows.length = dates.length ∧
      ∀ i, i < dates.length →
        ∃ r, getInterestRate bond (dates.getD i epochDate) = .ok r ∧
          flows.getD i cfDefault =
            { date := dates.getD i epochDate
              bondId := bond.id
              principal := principalPaymentAt bond P (dates.getD i epochDate)
              interest := (out - ((dates.take i).map (principalPaymentAt bond P)).sum) * r *
                ((((dates.getD i epochDate).time -
                  (if i = 0 then lastPay else dates.getD (i - 1) epochDate).time : Int) : ℚ) / 360)
              total := principalPaymentAt bond P (dates.getD i epochDate) +
                (out - ((dates.take i).map (principalPaymentAt bond P)).sum) * r *
                ((((dates.getD i epochDate).time -
                  (if i = 0 then lastPay else dates.getD (i - 1) epochDate).time : Int) : ℚ) / 360)
              currency := bond.currency } := by
  intro dates
  induction dates with
  | nil =>
    intro out lastPay flows h
    simp only [cashFlowLoop] at h
    injection h with hx
    subst hx
    exact ⟨rfl, fun i hi => absurd hi (by simp)⟩
  | cons d rest ih =>
    intro out lastPay flows h
    simp only [cashFlowLoop] at h
    split at h
    · cases h
    · split at h
      · cases h
      · injection h with hx
        subst hx
        rename_i xa rate hr xb laterFlows hrec
        obtain ⟨ihlen, ihspec⟩ := ih (out - principalPaymentAt bond P d) d laterFlows hrec
        constructor
        · simp [ihlen]
        · intro i hi
          cases i with
          | zero =>
            refine ⟨rate, by simpa using hr, ?_⟩
            simp
          | succ j =>
            have hj : j < rest.length := by
              simp only [List.length_cons] at hi
              omega
            obtain ⟨r, hr2, heq⟩ := ihspec j hj
            refine ⟨r, by simpa using hr2, ?_⟩
            have hprev : (if j + 1 = 0 then lastPay else (d :: rest).getD (j + 1 - 1) epochDate) =
                (if j = 0 then d else rest.getD (j - 1) epochDate) := by
              cases j with
              | zero => simp
              | succ k => simp
            simp only [List.getD_cons_succ, List.take_succ_cons, List.map_cons, List.sum_cons,
              hprev]
            rw [heq, sub_sub]

/-! ## Summing the principal over a set of dates (for C5) -/

theorem principalFor_cons (a : AmortizationPayment) (S : List AmortizationPayment)
    (P : ℚ) (d : JDate) :
    principalFor (a :: S) P d =
      if a.date = d then P * a.percentage else principalFor S P d := by
  unfold principalFor
  rw [List.find?_cons]
  by_cases hd : a.date = d
  · simp [hd]
  · simp [hd]

theorem sum_principalFor (P : ℚ) :
    ∀ (S : List AmortizationPayment) (L : List JDate), L.Nodup →
      (S.map (fun a => a.date)).Nodup →
      (∀ a ∈ S, a.date ∈ L) →
      (L.map (principalFor S P)).sum = P * (S.map (fun a => a.percentage)).sum := by
  intro S
  induction S with
  | nil =>
    intro L _ _ _
    have hz : ∀ d ∈ L, principalFor [] P d = 0 := fun d _ => rfl
    rw [List.map_congr_left hz]
    simp
  | cons a S ih =>
    intro L hLnodup hSnodup hmem
    simp only [List.map_cons, List.nodup_cons] at hSnodup
    obtain ⟨hadate, hSnodup2⟩ := hSnodup
    have haL : a.date ∈ L := hmem a (List.mem_cons_self a S)
    have hperm : List.Perm L (a.date :: L.erase a.date) := List.perm_cons_erase haL
    rw [(hperm.map (principalFor (a :: S) P)).sum_eq]
    rw [List.map_cons, List.sum_cons, principalFor_cons, if_pos rfl]
    have htail : ((L.erase a.date).map (principalFor (a :: S) P)) =
        ((L.erase a.date).map (principalFor S P)) := by
      refine List.map_congr_left (fun d hd => ?_)
      rw [principalFor_cons, if_neg ?_]
      intro he
      rw [← he] at hd
      exact hLnodup.not_mem_erase hd
    rw [htail]
    have hSmemTail : ∀ b ∈ S, b.date ∈ L.erase a.date := by
      intro b hb
      have hbL : b.date ∈ L := hmem b (List.mem_cons_of_mem a hb)
      have hbne : b.date ≠ a.date := by
        intro he
        exact hadate (List.mem_map.mpr ⟨b, hb, he⟩)
      exact (List.mem_erase_of_ne hbne).mpr hbL
    rw [ih (L.erase a.date) (hLnodup.erase _) hSnodup2 hSmemTail]
    rw [List.map_cons, List.sum_cons]
    ring

/-! ## Characterisation of the rate resolver (for C3) -/

theorem getInterestRate_found (bond : Bond) (d : JDate) (p : InterestRatePeriod)
    (hp : p ∈ bond.interestRatePeriods) (hs : p.startDate ≤ d) (he : d < p.endDate)
    (huniq : ∀ q ∈ bond.interestRatePeriods, q.startDate ≤ d → d < q.endDate → q = p) :
    getInterestRate bond d = .ok p.rate := by
  unfold getInterestRate
  cases hfind : bond.interestRatePeriods.find?
      (fun q => decide (q.startDate ≤ d) && decide (d < q.endDate)) with
  | none =>
    rw [List.find?_eq_none] at hfind
    exact absurd (by rw [Bool.and_eq_true, decide_eq_true_eq, decide_eq_true_eq]; exact ⟨hs, he⟩)
      (hfind p hp)
  | some q =>
    have hqmem := List.mem_of_find?_eq_some hfind
    have hqcond := List.find?_some hfind
    rw [Bool.and_eq_true, decide_eq_true_eq, decide_eq_true_eq] at hqcond
    rw [huniq q hqmem hqcond.1 hqcond.2]

theorem getInterestRate_none_cases (bond : Bond) (d : JDate)
    (hnone : ∀ q ∈ bond.interestRatePeriods, ¬ (q.startDate ≤ d ∧ d < q.endDate)) :
    (∀ lastP, bond.interestRatePeriods.getLast? = some lastP → d = lastP.endDate →
      getInterestRate bond d = .ok lastP.rate) ∧
    ((∀ lastP, bond.interestRatePeriods.getLast? = some lastP → d ≠ lastP.endDate) →
      getInterestRate bond d = .error .noApplicableRatePeriod) := by
  have hfind : bond.interestRatePeriods.find?
      (fun q => decide (q.startDate ≤ d) && decide (d < q.endDate)) = none := by
    rw [List.find?_eq_none]
    intro q hq
    rw [Bool.and_eq_true, decide_eq_true_eq, decide_eq_true_eq]
    exact hnone q hq
  constructor
  · intro lastP hlast heq
    unfold getInterestRate
    rw [hfind, hlast]
    exact if_pos heq
  · intro hne
    unfold getInterestRate
    rw [hfind]
    cases hlast : bond.interestRatePeriods.getLast? with
    | none => rfl
    | some lastP => exact if_neg (hne lastP hlast)

/-! ## Mass conservation of the period aggregator (for C6) -/

theorem sum_upsertAggregated (g : AggregatedCashFlow → ℚ) (c : CashFlowPayment → ℚ)
    (hg0 : ∀ key, g (emptyAggregated key) = 0)
    (hadd : ∀ a cf, g (addCashFlowTo a cf) = g a + c cf) :
    ∀ (l : List (String × AggregatedCashFlow)) (key : String) (cf : CashFlowPayment),
      ((upsertAggregated key cf l).map (fun e => g e.2)).sum =
        (l.map (fun e => g e.2)).sum + c cf := by
  intro l
  induction l with
  | nil =>
    intro key cf
    simp [upsertAggregated, hadd, hg0]
  | cons e rest ih =>
    intro key cf
    obtain ⟨k, a⟩ := e
    by_cases hk : k = key
    · simp only [upsertAggregated, if_pos hk, List.map_cons, List.sum_cons, hadd]
      ring
    · simp only [upsertAggregated, if_neg hk, List.map_cons, List.sum_cons, ih]
      ring

theorem sum_aggFoldl (g : AggregatedCashFlow → ℚ) (c : CashFlowPayment → ℚ)
    (hg0 : ∀ key, g (emptyAggregated key) = 0)
    (hadd : ∀ a cf, g (addCashFlowTo a cf) = g a + c cf) (pt : PeriodType) :
    ∀ (flows : List CashFlowPayment) (acc : List (String × AggregatedCashFlow)),
      ((flows.foldl
          (fun acc2 cashFlow => upsertAggregated (periodLabel pt cashFlow.date) cashFlow acc2)
          acc).map (fun e => g e.2)).sum =
        (acc.map (fun e => g e.2)).sum + (flows.map c).sum := by
  intro flows
  induction flows with
  | nil =>
    intro acc
    simp
  | cons cf rest ih =>
    intro acc
    simp only [List.foldl_cons, List.map_cons, List.sum_cons]
    rw [ih, sum_upsertAggregated g c hg0 hadd]
    ring

theorem aggregateCashFlows_sum (g : AggregatedCashFlow → ℚ) (c : CashFlowPayment → ℚ)
    (hg0 : ∀ key, g (emptyAggregated key) = 0)
    (hadd : ∀ a cf, g (addCashFlowTo a cf) = g a + c cf)
    (flows : List CashFlowPayment) (pt : PeriodType) :
    ((aggregateCashFlows flows pt).map g).sum = (flows.map c).sum := by
  unfold aggregateCashFlows
  have hperm := List.perm_insertionSort
    (fun a b : AggregatedCashFlow => a.period ≤ b.period)
    ((flows.foldl
        (fun acc2 cashFlow => upsertAggregated (periodLabel pt cashFlow.date) cashFlow acc2)
        []).map (fun e => e.2))
  rw [(hperm.map g).sum_eq, List.map_map]
  have h := sum_aggFoldl g c hg0 hadd pt flows []
  simp only [List.map_nil, List.sum_nil, zero_add] at h
  exact h

theorem sum_map_currency_ite (f : CashFlowPayment → ℚ) (cur : Currency) :
    ∀ l : List CashFlowPayment,
      (l.map (fun cf => if cf.currency = cur then f cf else 0)).sum =
        ((l.filter (fun cf => decide (cf.currency = cur))).map f).sum := by
  intro l
  induction l with
  | nil => simp
  | cons cf rest ih =>
    by_cases hc : cf.currency = cur
    · simp [hc, ih, List.filter_cons]
    · simp [hc, ih, List.filter_cons]

/-! ## Present value as a sum (for C7) -/

theorem calculatePresentValue_foldl (pow : ℚ → ℚ → ℚ) (r : ℚ) (ref : JDate) (fx : ℚ) :
    ∀ (l : List CashFlowPayment) (acc : ℚ),
      l.foldl (fun presentValue cashFlow =>
        if cashFlow.date < ref then presentValue
        else presentValue +
          (if cashFlow.currency = Currency.EUR then cashFlow.total / fx else cashFlow.total) *
            pow (1 + r) (-(((cashFlow.date.time - ref.time : Int) : ℚ) / 365.25))) acc =
      acc + ((l.filter (fun cf => decide (¬ cf.date < ref))).map (fun cf =>
        (if cf.currency = Currency.EUR then cf.total / fx else cf.total) *
          pow (1 + r) (-(((cf.date.time - ref.time : Int) : ℚ) / 365.25)))).sum := by
  intro l
  induction l with
  | nil =>
    intro acc
    simp only [List.foldl_nil, List.filter_nil, List.map_nil, List.sum_nil, add_zero]
  | cons cf rest ih =>
    intro acc
    by_cases hd : cf.date < ref
    · have hdec : (decide (¬ cf.date < ref)) = false := by simp [hd]
      simp only [List.foldl_cons, if_pos hd, List.filter_cons, hdec]
      exact ih acc
    · have hdec : (decide (¬ cf.date < ref)) = true := by simp [hd]
      simp only [List.foldl_cons, if_neg hd, List.filter_cons, hdec, if_pos, List.map_cons,
        List.sum_cons]
      rw [ih]
      ring

theorem calculatePresentValue_eq_sum (pow : ℚ → ℚ → ℚ) (flows : List CashFlowPayment)
    (r : ℚ) (ref : JDate) (fx : ℚ) :
    calculatePresentValue pow flows r ref fx =
      ((flows.filter (fun cf => decide (¬ cf.date < ref))).map (fun cf =>
        (if cf.currency = Currency.EUR then cf.total / fx else cf.total) *
          pow (1 + r) (-(((cf.date.time - ref.time : Int) : ℚ) / 365.25)))).sum := by
  unfold calculatePresentValue
  have h := calculatePresentValue_foldl pow r ref fx flows 0
  rw [zero_add] at h
  exact h

/-! ## Characterisation of the multi-instrument aggregator (for C8, C10) -/

theorem calculateAllCashFlowsAux_spec (ps : String → ℚ) (sD eD : JDate) :
    ∀ (bonds : List Bond) (all : List CashFlowPayment),
      calculateAllCashFlowsAux ps sD eD bonds = .ok all →
      ∃ parts : List (List CashFlowPayment),
        List.Forall₂ (fun b cfs => calculateCashFlows b (ps b.id) sD eD = .ok cfs)
          (bonds.filter (fun b => decide (0 < ps b.id))) parts ∧
        all = parts.flatten := by
  intro bonds
  induction bonds with
  | nil =>
    intro all h
    simp only [calculateAllCashFlowsAux] at h
    injection h with hx
    subst hx
    exact ⟨[], by simp, rfl⟩
  | cons b rest ih =>
    intro all h
    simp only [calculateAllCashFlowsAux] at h
    by_cases hpos : 0 < ps b.id
    · rw [if_pos hpos] at h
      split at h
      · cases h
      · split at h
        · cases h
        · injection h with hx
          subst hx
          rename_i x1 cfs hcfs x2 more hmore
          obtain ⟨parts, hf, hj⟩ := ih more hmore
          refine ⟨cfs :: parts, ?_, ?_⟩
          · rw [List.filter_cons_of_pos (by simpa using hpos)]
            exact List.Forall₂.cons hcfs hf
          · simp [hj]
    · rw [if_neg hpos] at h
      obtain ⟨parts, hf, hj⟩ := ih all h
      refine ⟨parts, ?_, hj⟩
      rw [List.filter_cons_of_neg (by simpa using hpos)]
      exact hf

theorem calculateAllCashFlowsAux_congr (sD eD : JDate) (ps1 ps2 : String → ℚ) :
    ∀ (bonds : List Bond),
      (∀ b ∈ bonds, (0 < ps1 b.id ∨ 0 < ps2 b.id) → ps1 b.id = ps2 b.id) →
      calculateAllCashFlowsAux ps1 sD eD bonds = calculateAllCashFlowsAux ps2 sD eD bonds := by
  intro bonds
  induction bonds with
  | nil =>
    intro _
    rfl
  | cons b rest ih =>
    intro hagree
    have hrest := fun b2 hb2 => hagree b2 (List.mem_cons_of_mem b hb2)
    simp only [calculateAllCashFlowsAux]
    by_cases h1 : 0 < ps1 b.id
    · have heq : ps1 b.id = ps2 b.id := hagree b (List.mem_cons_self b rest) (Or.inl h1)
      have h2 : 0 < ps2 b.id := by rw [← heq]; exact h1
      rw [if_pos h1, if_pos h2, ← heq, ih hrest]
    · by_cases h2 : 0 < ps2 b.id
      · have heq : ps1 b.id = ps2 b.id := hagree b (List.mem_cons_self b rest) (Or.inr h2)
        rw [heq] at h1
        exact absurd h2 h1
      · rw [if_neg h1, if_neg h2, ih hrest]

theorem calculateAllCashFlowsAux_nonpos (ps : String → ℚ) (sD eD : JDate) :
    ∀ (bonds : List Bond), (∀ b ∈ bonds, ps b.id ≤ 0) →
      calculateAllCashFlowsAux ps sD eD bonds = .ok [] := by
  intro bonds
  induction bonds with
  | nil =>
    intro _
    rfl
  | cons b rest ih =>
    intro hnp
    simp only [calculateAllCashFlowsAux]
    rw [if_neg (not_lt.mpr (hnp b (List.mem_cons_self b rest)))]
    exact ih (fun b2 hb2 => hnp b2 (List.mem_cons_of_mem b hb2))

/-! ## Claim theorems -/

/-- C1: For every bond, initial principal, and date window, the cash flow
generator walks the scheduled dates in ascending order maintaining
outstandingPrincipal (seeded at initialPrincipal) and lastPaymentDate
(seeded at issueDate): the i-th payment is at the i-th scheduled date, its
principal is initialPrincipal times the percentage of the amortization
entry at exactly that date (else 0), its interest is
outstandingPrincipal * rate(date) * (daysSinceLastPayment / 360) where
outstandingPrincipal is initialPrincipal minus all previously emitted
principal and daysSinceLastPayment is the exact number of calendar days
since the previous scheduled date (issueDate for the first); total is
principal + interest.  After each payment the outstanding principal
decreases by the principal paid and the last payment date becomes the
current date, which the closed forms above express. -/
theorem claim_C1_generator_walk (bond : Bond) (P : ℚ) (startDate endDate : JDate)
    (dates : List JDate) (flows : List CashFlowPayment)
    (hdates : scheduledDates bond startDate endDate = .ok dates)
    (hflows : calculateCashFlows bond P startDate endDate = .ok flows) :
    List.Sorted (fun a b : JDate => a < b) dates ∧
    flows.length = dates.length ∧
    ∀ i, i < dates.length →
      ∃ r, getInterestRate bond (dates.getD i epochDate) = .ok r ∧
        flows.getD i cfDefault =
          { date := dates.getD i epochDate
            bondId := bond.id
            principal := principalPaymentAt bond P (dates.getD i epochDate)
            interest := (P - ((dates.take i).map (principalPaymentAt bond P)).sum) * r *
              ((((dates.getD i epochDate).time -
                (if i = 0 then bond.issueDate else dates.getD (i - 1) epochDate).time : Int) : ℚ)
                / 360)
            total := principalPaymentAt bond P (dates.getD i epochDate) +
              (P - ((dates.take i).map (principalPaymentAt bond P)).sum) * r *
              ((((dates.getD i epochDate).time -
                (if i = 0 then bond.issueDate else dates.getD (i - 1) epochDate).time : Int) : ℚ)
                / 360)
            currency := bond.currency } := by
  rw [calculateCashFlows, hdates] at hflows
  have hloop : cashFlowLoop bond P dates P bond.issueDate = .ok flows := hflows
  obtain ⟨hlen, hspec⟩ := cashFlowLoop_spec bond P dates P bond.issueDate flows hloop
  exact ⟨(scheduledDates_ok_spec hdates).2.1, hlen, hspec⟩

/-- C2: For every bond with a non-empty amortization schedule and every
window, the scheduled payment dates are exactly the de-duplicated union of
the day-9 interest candidates (every calendar month between
max(issueDate, startDate) and min(endDate, lastAmortizationDate + 1 day)
whose month number is in interestPaymentMonths, kept when inside the
window; specInterestDates) and the amortization dates inside the window;
the result is strictly ascending, so each date occurs exactly once even
when it comes from both sources. -/
theorem claim_C2_scheduler (bond : Bond) (startDate endDate : JDate)
    (hne : bond.amortizationSchedule ≠ []) :
    ∃ dates, scheduledDates bond startDate endDate = .ok dates ∧
      List.Sorted (fun a b : JDate => a < b) dates ∧ dates.Nodup ∧
      ∀ d, d ∈ dates ↔ (d ∈ specInterestDates bond startDate endDate ∨
        ∃ a ∈ bond.amortizationSchedule, a.date = d ∧ startDate ≤ d ∧ d ≤ endDate) := by
  cases hla : bond.amortizationSchedule.getLast? with
  | none => exact absurd (List.getLast?_eq_none_iff.mp hla) hne
  | some la =>
    have heq := scheduledDates_eq bond startDate endDate la hla
    obtain ⟨h1, h2, h3⟩ := scheduledDates_ok_spec heq
    exact ⟨_, heq, h2, h1, h3⟩

/-- C3: The rate resolver returns the rate of the (unique) period with
startDate <= date < endDate; if none matches and the date equals the final
period's endDate exactly it returns that period's rate; otherwise it fails
with NoApplicableRatePeriod (it propagates an error rather than defaulting).
In particular a date equal to a period's startDate resolves to that
period's rate (the fourth conjunct). -/
theorem claim_C3_rate_resolver (bond : Bond) (d : JDate) :
    (∀ p ∈ bond.interestRatePeriods, p.startDate ≤ d → d < p.endDate →
      (∀ q ∈ bond.interestRatePeriods, q.startDate ≤ d → d < q.endDate → q = p) →
      getInterestRate bond d = .ok p.rate) ∧
    ((∀ q ∈ bond.interestRatePeriods, ¬ (q.startDate ≤ d ∧ d < q.endDate)) →
      ∀ lastP, bond.interestRatePeriods.getLast? = some lastP → d = lastP.endDate →
        getInterestRate bond d = .ok lastP.rate) ∧
    ((∀ q ∈ bond.interestRatePeriods, ¬ (q.startDate ≤ d ∧ d < q.endDate)) →
      (∀ lastP, bond.interestRatePeriods.getLast? = some lastP → d ≠ lastP.endDate) →
      getInterestRate bond d = .error .noApplicableRatePeriod) ∧
    (∀ p ∈ bond.interestRatePeriods, p.startDate = d → d < p.endDate →
      (∀ q ∈ bond.interestRatePeriods, q.startDate ≤ d → d < q.endDate → q = p) →
      getInterestRate bond d = .ok p.rate) :=
  ⟨fun p hp hs he hu => getInterestRate_found bond d p hp hs he hu,
   fun hnone lastP hl he => (getInterestRate_none_cases bond d hnone).1 lastP hl he,
   fun hnone hne => (getInterestRate_none_cases bond d hnone).2 hne,
   fun p hp hs he hu => getInterestRate_found bond d p hp (le_of_eq hs) he hu⟩

/-- C4: The principal tracker returns initialPrincipal unchanged before the
issue date, and otherwise initialPrincipal * (1 - sum of the percentages
due on or before the date); consequently it equals initialPrincipal at the
issue date (all amortizations fall after issue, as in every instrument of
this data set) and 0 (exactly, in the rational idealisation of "within
epsilon") at any date on or after every amortization when the schedule
sums to 1. -/
theorem claim_C4_outstanding_principal (bond : Bond) (P : ℚ) :
    (∀ d, getOutstandingPrincipal bond d P =
      if d < bond.issueDate then P
      else P * (1 - ((bond.amortizationSchedule.filter
        (fun payment => decide (payment.date ≤ d))).map
        (fun payment => payment.percentage)).sum)) ∧
    ((∀ a ∈ bond.amortizationSchedule, bond.issueDate < a.date) →
      getOutstandingPrincipal bond bond.issueDate P = P) ∧
    (∀ D, (bond.amortizationSchedule.map (fun a => a.percentage)).sum = 1 →
      (∀ a ∈ bond.amortizationSchedule, a.date ≤ D) →
      ¬ D < bond.issueDate →
      getOutstandingPrincipal bond D P = 0) := by
  refine ⟨fun d => rfl, ?_, ?_⟩
  · intro hafter
    unfold getOutstandingPrincipal
    rw [if_neg (lt_irrefl bond.issueDate)]
    have hfil : bond.amortizationSchedule.filter
        (fun payment => decide (payment.date ≤ bond.issueDate)) = [] := by
      rw [List.filter_eq_nil_iff]
      intro a ha
      simp only [decide_eq_true_eq]
      exact not_le.mpr (hafter a ha)
    rw [hfil]
    simp
  · intro D hsum hall hnlt
    unfold getOutstandingPrincipal
    rw [if_neg hnlt]
    have hfil : bond.amortizationSchedule.filter
        (fun payment => decide (payment.date ≤ D)) = bond.amortizationSchedule := by
      rw [List.filter_eq_self]
      intro a ha
      simp only [decide_eq_true_eq]
      exact hall a ha
    rw [hfil, hsum]
    ring

/-- C5: For every bond whose amortization percentages sum to 1 (with the
schedule's dates distinct, per the data-model invariant of strictly
increasing dates) and every window containing every amortization date
(a full-lifetime run), the principal fields of the generated payments sum
exactly to the initial principal. -/
theorem claim_C5_principal_conservation (bond : Bond) (P : ℚ) (startDate endDate : JDate)
    (flows : List CashFlowPayment)
    (hsum : (bond.amortizationSchedule.map (fun a => a.percentage)).sum = 1)
    (hnodup : (bond.amortizationSchedule.map (fun a => a.date)).Nodup)
    (hwin : ∀ a ∈ bond.amortizationSchedule, startDate ≤ a.date ∧ a.date ≤ endDate)
    (hok : calculateCashFlows bond P startDate endDate = .ok flows) :
    (flows.map (fun f => f.principal)).sum = P := by
  cases hdates : scheduledDates bond startDate endDate with
  | error e =>
    rw [calculateCashFlows, hdates] at hok
    exact absurd hok (by intro h; exact Except.noConfusion h)
  | ok dates =>
    rw [calculateCashFlows, hdates] at hok
    have hloop : cashFlowLoop bond P dates P bond.issueDate = .ok flows := hok
    rw [cashFlowLoop_principal_sum bond P dates P bond.issueDate flows hloop]
    obtain ⟨hdnodup, _, hmem⟩ := scheduledDates_ok_spec hdates
    have hdatesmem : ∀ a ∈ bond.amortizationSchedule, a.date ∈ dates := by
      intro a ha
      exact (hmem a.date).mpr (Or.inr ⟨a, ha, rfl, (hwin a ha).1, (hwin a ha).2⟩)
    have h := sum_principalFor P bond.amortizationSchedule dates hdnodup hnodup hdatesmem
    have hpp : dates.map (principalPaymentAt bond P) =
        dates.map (principalFor bond.amortizationSchedule P) := rfl
    rw [hpp, h, hsum, mul_one]

/-- C6: The period aggregator conserves mass per currency: for each of the
two currencies and each of the three components, the sum over all output
buckets equals the sum of that component over exactly the input payments
of that currency, so nothing is lost, duplicated, or mixed across
currencies. -/
theorem claim_C6_aggregation_mass (flows : List CashFlowPayment) (pt : PeriodType) :
    ((aggregateCashFlows flows pt).map (fun e => e.usdPrincipal)).sum =
      ((flows.filter (fun cf => decide (cf.currency = Currency.USD))).map
        (fun cf => cf.principal)).sum ∧
    ((aggregateCashFlows flows pt).map (fun e => e.usdInterest)).sum =
      ((flows.filter (fun cf => decide (cf.currency = Currency.USD))).map
        (fun cf => cf.interest)).sum ∧
    ((aggregateCashFlows flows pt).map (fun e => e.usdTotal)).sum =
      ((flows.filter (fun cf => decide (cf.currency = Currency.USD))).map
        (fun cf => cf.total)).sum ∧
    ((aggregateCashFlows flows pt).map (fun e => e.eurPrincipal)).sum =
      ((flows.filter (fun cf => decide (cf.currency = Currency.EUR))).map
        (fun cf => cf.principal)).sum ∧
    ((aggregateCashFlows flows pt).map (fun e => e.eurInterest)).sum =
      ((flows.filter (fun cf => decide (cf.currency = Currency.EUR))).map
        (fun cf => cf.interest)).sum ∧
    ((aggregateCashFlows flows pt).map (fun e => e.eurTotal)).sum =
      ((flows.filter (fun cf => decide (cf.currency = Currency.EUR))).map
        (fun cf => cf.total)).sum := by
  refine ⟨?_, ?_, ?_, ?_, ?_, ?_⟩
  · rw [aggregateCashFlows_sum (fun e => e.usdPrincipal)
      (fun cf => if cf.currency = Currency.USD then cf.principal else 0) (fun key => rfl)
      (fun a cf => by cases hc : cf.currency <;> simp [addCashFlowTo, hc])]
    exact sum_map_currency_ite (fun cf => cf.principal) Currency.USD flows
  · rw [aggregateCashFlows_sum (fun e => e.usdInterest)
      (fun cf => if cf.currency = Currency.USD then cf.interest else 0) (fun key => rfl)
      (fun a cf => by cases hc : cf.currency <;> simp [addCashFlowTo, hc])]
    exact sum_map_currency_ite (fun cf => cf.interest) Currency.USD flows
  · rw [aggregateCashFlows_sum (fun e => e.usdTotal)
      (fun cf => if cf.currency = Currency.USD then cf.total else 0) (fun key => rfl)
      (fun a cf => by cases hc : cf.currency <;> simp [addCashFlowTo, hc])]
    exact sum_map_currency_ite (fun cf => cf.total) Currency.USD flows
  · rw [aggregateCashFlows_sum (fun e => e.eurPrincipal)
      (fun cf => if cf.currency = Currency.EUR then cf.principal else 0) (fun key => rfl)
      (fun a cf => by cases hc : cf.currency <;> simp [addCashFlowTo, hc])]
    exact sum_map_currency_ite (fun cf => cf.principal) Currency.EUR flows
  · rw [aggregateCashFlows_sum (fun e => e.eurInterest)
      (fun cf => if cf.currency = Currency.EUR then cf.interest else 0) (fun key => rfl)
      (fun a cf => by cases hc : cf.currency <;> simp [addCashFlowTo, hc])]
    exact sum_map_currency_ite (fun cf => cf.interest) Currency.EUR flows
  · rw [aggregateCashFlows_sum (fun e => e.eurTotal)
      (fun cf => if cf.currency = Currency.EUR then cf.total else 0) (fun key => rfl)
      (fun a cf => by cases hc : cf.currency <;> simp [addCashFlowTo, hc])]
    exact sum_map_currency_ite (fun cf => cf.total) Currency.EUR flows

/-- C7: The present value engine skips every flow dated before the
reference date, and each remaining flow contributes its total (divided by
usdToEurRate when EUR) times the discount factor
pow (1 + discountRate) (-(elapsedDays / 365.25)); with discount rate 0
(given that the discounting primitive satisfies pow 1 e = 1, as Math.pow
does) and exchange rate 1 it degrades to the plain sum of the totals of
the flows on or after the reference date. -/
theorem claim_C7_present_value (pow : ℚ → ℚ → ℚ) (flows : List CashFlowPayment)
    (referenceDate : JDate) :
    (∀ discountRate usdToEurRate,
      calculatePresentValue pow flows discountRate referenceDate usdToEurRate =
        ((flows.filter (fun cf => decide (¬ cf.date < referenceDate))).map (fun cf =>
          (if cf.currency = Currency.EUR then cf.total / usdToEurRate else cf.total) *
            pow (1 + discountRate)
              (-(((cf.date.time - referenceDate.time : Int) : ℚ) / 365.25)))).sum) ∧
    ((∀ e, pow 1 e = 1) →
      calculatePresentValue pow flows 0 referenceDate 1 =
        ((flows.filter (fun cf => decide (referenceDate ≤ cf.date))).map
          (fun cf => cf.total)).sum) := by
  constructor
  · intro discountRate usdToEurRate
    exact calculatePresentValue_eq_sum pow flows discountRate referenceDate usdToEurRate
  · intro hpow
    rw [calculatePresentValue_eq_sum pow flows 0 referenceDate 1]
    have hfil : flows.filter (fun cf => decide (¬ cf.date < referenceDate)) =
        flows.filter (fun cf => decide (referenceDate ≤ cf.date)) := by
      refine List.filter_congr (fun cf _ => ?_)
      simp [not_lt]
    rw [hfil]
    refine congrArg List.sum (List.map_congr_left (fun cf _ => ?_))
    have h10 : (1 : ℚ) + 0 = 1 := by norm_num
    rw [h10, hpow, mul_one]
    cases hc : cf.currency
    · simp [hc]
    · simp [hc]

/-- C8: When the multi-instrument aggregator succeeds, its output is the
date-sorted concatenation of the generator outputs of exactly the known
instruments with a strictly positive requested amount (instruments with a
zero or negative amount contribute no rows), and the merged list is
ascending by payment date. -/
theorem claim_C8_multi_instrument (initialPrincipals : String → ℚ)
    (startDate endDate : JDate) (out : List CashFlowPayment)
    (h : calculateAllCashFlows initialPrincipals startDate endDate = .ok out) :
    ∃ parts : List (List CashFlowPayment),
      List.Forall₂
        (fun b cfs => calculateCashFlows b (initialPrincipals b.id) startDate endDate = .ok cfs)
        (getAllBonds.filter (fun b => decide (0 < initialPrincipals b.id))) parts ∧
      out = List.insertionSort (fun a b : CashFlowPayment => a.date ≤ b.date) parts.flatten ∧
      List.Sorted (fun a b : CashFlowPayment => a.date ≤ b.date) out := by
  unfold calculateAllCashFlows at h
  cases haux : calculateAllCashFlowsAux initialPrincipals startDate endDate getAllBonds with
  | error e =>
    rw [haux] at h
    exact absurd h (by intro h2; exact Except.noConfusion h2)
  | ok all =>
    rw [haux] at h
    have hout : out = List.insertionSort (fun a b : CashFlowPayment => a.date ≤ b.date) all := by
      injection h with hx
      exact hx.symm
    obtain ⟨parts, hf, hj⟩ := calculateAllCashFlowsAux_spec initialPrincipals startDate endDate
      getAllBonds all haux
    subst hj
    exact ⟨parts, hf, hout, hout ▸ List.sorted_insertionSort _ _⟩

/-- C9: The generator reads the last amortization entry unconditionally:
with a non-empty schedule this read is safe and the run can never produce
the fault (the none branch of the total embedding is unreachable), while
with an empty schedule the generator faults at that access — the error
type of the embedding has no EmptySchedule constructor because the code
has no such error path. -/
theorem claim_C9_empty_schedule (bond : Bond) (P : ℚ) (startDate endDate : JDate) :
    (bond.amortizationSchedule = [] →
      calculateCashFlows bond P startDate endDate = .error .fault) ∧
    (bond.amortizationSchedule ≠ [] →
      calculateCashFlows bond P startDate endDate ≠ .error .fault) := by
  constructor
  · intro hempty
    have hs : scheduledDates bond startDate endDate = .error .fault :=
      (scheduledDates_fault_iff bond startDate endDate).mpr hempty
    rw [calculateCashFlows, hs]
  · intro hne
    cases hs : scheduledDates bond startDate endDate with
    | error e =>
      cases e with
      | fault =>
        exact absurd ((scheduledDates_fault_iff bond startDate endDate).mp hs) hne
      | noApplicableRatePeriod =>
        rw [calculateCashFlows, hs]
        intro h
        injection h with hx
        exact CalcError.noConfusion hx
    | ok dates =>
      rw [calculateCashFlows, hs]
      exact cashFlowLoop_ne_fault bond P dates P bond.issueDate

/-- C10: The multi-instrument aggregator depends only on the entries of
the amounts map at known bond identifiers with strictly positive amounts:
two maps agreeing there (however they differ at unknown identifiers or at
zero/negative amounts) give identical outputs, and a map with no positive
known amount yields the empty output with no error. -/
theorem claim_C10_amounts_noninterference (startDate endDate : JDate) :
    (∀ ps1 ps2 : String → ℚ,
      (∀ b ∈ getAllBonds, (0 < ps1 b.id ∨ 0 < ps2 b.id) → ps1 b.id = ps2 b.id) →
      calculateAllCashFlows ps1 startDate endDate =
        calculateAllCashFlows ps2 startDate endDate) ∧
    (∀ ps : String → ℚ, (∀ b ∈ getAllBonds, ps b.id ≤ 0) →
      calculateAllCashFlows ps startDate endDate = .ok []) := by
  constructor
  · intro ps1 ps2 hagree
    unfold calculateAllCashFlows
    rw [calculateAllCashFlowsAux_congr startDate endDate ps1 ps2 getAllBonds hagree]
  · intro ps hnp
    unfold calculateAllCashFlows
    rw [calculateAllCashFlowsAux_nonpos ps startDate endDate getAllBonds hnp]
    rfl

/-! ## Witnesses: a small test instrument (the end-to-end example of the
design document: face 1000, single 100 percent amortization on 2024-07-09,
flat 1.25 percent coupon, interest months January and July) and concrete
runs of the engine on it and on the real reference data. -/

def testPeriod : InterestRatePeriod :=
  ⟨ISSUE_DATE, createDate 2024 7 9 (by norm_num), 0.0125⟩

def testAmort : AmortizationPayment := ⟨createDate 2024 7 9 (by norm_num), 1⟩

def testBond : Bond :=
  { id := "TEST"
    name := "Test instrument"
    currency := .USD
    issueDate := ISSUE_DATE
    maxAmount := 1000
    interestRatePeriods := [testPeriod]
    amortizationSchedule := [testAmort]
    interestPaymentMonths := [1, 7] }

def testStart : JDate := createDate 2024 1 1 (by norm_num)

def testEnd : JDate := createDate 2024 7 9 (by norm_num)

def testAmounts : String → ℚ := fun id => if id = "USD-STEP-UP-2030" then 1000 else 0

def testAmounts2 : String → ℚ := fun id => if id = "USD-STEP-UP-2030" then 1000 else -5

def testFlows : List CashFlowPayment :=
  [ { date := createDate 2024 1 9 (by norm_num), bondId := "TEST", principal := 0,
      interest := 5, total := 5, currency := .USD },
    { date := createDate 2023 1 9 (by norm_num), bondId := "TEST", principal := 0,
      interest := 7, total := 7, currency := .EUR } ]

def emptyBond : Bond := { testBond with amortizationSchedule := [] }

theorem claim_C1_witness :
    ∃ dates flows, scheduledDates testBond testStart testEnd = .ok dates ∧
      calculateCashFlows testBond 1000 testStart testEnd = .ok flows ∧
      flows.length = dates.length :=
  ⟨_, _, by with_unfolding_all rfl, by with_unfolding_all rfl,
    (claim_C1_generator_walk testBond 1000 testStart testEnd _ _
      (by with_unfolding_all rfl) (by with_unfolding_all rfl)).2.1⟩

theorem claim_C2_witness :
    ∃ dates, scheduledDates testBond testStart testEnd = .ok dates ∧
      List.Sorted (fun a b : JDate => a < b) dates ∧ dates.Nodup ∧
      ∀ d, d ∈ dates ↔ (d ∈ specInterestDates testBond testStart testEnd ∨
        ∃ a ∈ testBond.amortizationSchedule, a.date = d ∧ testStart ≤ d ∧ d ≤ testEnd) :=
  claim_C2_scheduler testBond testStart testEnd (List.cons_ne_nil _ _)

theorem claim_C3_witness :
    getInterestRate testBond ISSUE_DATE = .ok testPeriod.rate ∧
    getInterestRate testBond (createDate 2024 7 9 (by norm_num)) = .ok testPeriod.rate ∧
    getInterestRate testBond (createDate 2025 1 1 (by norm_num)) =
      .error .noApplicableRatePeriod :=
  ⟨(claim_C3_rate_resolver testBond ISSUE_DATE).1 testPeriod (List.mem_cons_self _ _)
      (by decide) (by decide) (fun q hq _ _ => List.eq_of_mem_singleton hq),
   (claim_C3_rate_resolver testBond (createDate 2024 7 9 (by norm_num))).2.1
      (by intro q hq; rw [List.eq_of_mem_singleton hq]; decide) testPeriod rfl rfl,
   (claim_C3_rate_resolver testBond (createDate 2025 1 1 (by norm_num))).2.2.1
      (by intro q hq; rw [List.eq_of_mem_singleton hq]; decide)
      (by intro lastP hl; injection hl with hx; subst hx; decide)⟩

theorem claim_C4_witness :
    getOutstandingPrincipal testBond ISSUE_DATE 1000 = 1000 ∧
    getOutstandingPrincipal testBond (createDate 2024 7 9 (by norm_num)) 1000 = 0 :=
  ⟨(claim_C4_outstanding_principal testBond 1000).2.1 (by decide),
   (claim_C4_outstanding_principal testBond 1000).2.2 (createDate 2024 7 9 (by norm_num))
     (by with_unfolding_all rfl) (by decide) (by decide)⟩

theorem claim_C5_witness :
    ∃ flows, calculateCashFlows testBond 1000 ISSUE_DATE testEnd = .ok flows ∧
      (flows.map (fun f => f.principal)).sum = 1000 :=
  ⟨_, by with_unfolding_all rfl,
    claim_C5_principal_conservation testBond 1000 ISSUE_DATE testEnd _
      (by with_unfolding_all rfl) (by decide) (by decide) (by with_unfolding_all rfl)⟩

theorem claim_C7_witness :
    calculatePresentValue (fun _ _ => (1 : ℚ)) testFlows 0 testStart 1 =
      ((testFlows.filter (fun cf => decide (testStart ≤ cf.date))).map
        (fun cf => cf.total)).sum ∧
    calculatePresentValue (fun _ _ => (1 : ℚ)) testFlows 0 testStart 1 = 5 :=
  ⟨(claim_C7_present_value (fun _ _ => (1 : ℚ)) testFlows testStart).2 (fun _ => rfl),
   by with_unfolding_all rfl⟩

theorem claim_C8_witness :
    ∃ out, calculateAllCashFlows testAmounts testStart (createDate 2024 12 31 (by norm_num)) =
      .ok out ∧ List.Sorted (fun a b : CashFlowPayment => a.date ≤ b.date) out := by
  obtain ⟨parts, hf, hout, hsorted⟩ := claim_C8_multi_instrument testAmounts testStart
    (createDate 2024 12 31 (by norm_num)) _ (by with_unfolding_all rfl)
  exact ⟨_, by with_unfolding_all rfl, hsorted⟩

theorem claim_C9_witness :
    calculateCashFlows emptyBond 1000 ISSUE_DATE testEnd = .error .fault ∧
    calculateCashFlows testBond 1000 ISSUE_DATE testEnd ≠ .error .fault :=
  ⟨(claim_C9_empty_schedule emptyBond 1000 ISSUE_DATE testEnd).1 rfl,
   (claim_C9_empty_schedule testBond 1000 ISSUE_DATE testEnd).2 (List.cons_ne_nil _ _)⟩

theorem claim_C10_witness :
    calculateAllCashFlows testAmounts testStart testEnd =
      calculateAllCashFlows testAmounts2 testStart testEnd ∧
    calculateAllCashFlows (fun _ => 0) testStart testEnd = .ok [] :=
  ⟨(claim_C10_amounts_noninterference testStart testEnd).1 testAmounts testAmounts2
      (by decide),
   (claim_C10_amounts_noninterference testStart testEnd).2 (fun _ => 0) (by decide)⟩
